/-
Verification development for the DatasetViewer repository
(src/datasetviewer.py).

The file shallowly embeds the three core subsystems the claims are about:

* the store (`DatasetDatabase`): the `posts` and `processed_files` tables
  from `_create_tables`, with `insert_post`, `insert_batch`,
  `is_file_processed`, `mark_file_processed`, `post_exists`;
* the query compiler and executor (`search_posts`, `_parse_search_query`,
  `_add_numeric_condition`, `_parse_filesize`), including SQLite's
  observable semantics for the constructs the code uses: `LIKE` with
  ASCII-case-insensitive matching, three-valued NULL comparisons,
  `UNIQUE`/`NOT NULL` constraint failures, the `ORDER BY ... DESC LIMIT ?`
  clause, and the error raised when the number of supplied bindings does
  not match the number of `?` placeholders;
* the stream ingestor (`DatasetDownloader.download_and_process`,
  `_stream_process_file`), with the remote catalog, per-file byte streams
  and `json.loads` modelled as an explicit environment, and the
  cooperative cancellation flag modelled as the instant (counted in
  cancellation checks) at which the flag becomes set.

Python exceptions that the source lets escape are modelled as `Option`
results (`none` = raised); exceptions the source catches locally are
folded into the corresponding branch, mirroring the `try/except` blocks.
-/
import Mathlib

namespace DatasetViewer

/-! ## ASCII string helpers

Python/SQLite string operations are modelled over `List Char` so that
every definition is executable by the kernel. `str.lower()` and SQLite
case folding are modelled for ASCII letters (the only case folding SQLite
applies by default, and the only one the code's fixed key/suffix literals
need). -/

/-- ASCII lower-casing of one character. -/
def lowerAsciiChar (c : Char) : Char :=
  if 'A' ≤ c ∧ c ≤ 'Z' then Char.ofNat (c.toNat + 32) else c

/-- ASCII lower-casing of a string; models `str.lower()` on the ASCII
letters the code compares against, and SQLite's `LIKE` case folding. -/
def lowerAscii (s : String) : String := String.mk (s.data.map lowerAsciiChar)

/-- Whether `pre` is an initial segment of `l`. -/
def startsSeg : List Char → List Char → Bool
  | [], _ => true
  | _ :: _, [] => false
  | a :: as, b :: bs => (a = b) && startsSeg as bs

/-- Whether `needle` occurs contiguously somewhere in `hay`. -/
def containsSeg (needle : List Char) : List Char → Bool
  | [] => startsSeg needle []
  | c :: hs => startsSeg needle (c :: hs) || containsSeg needle hs

/-- Character-level model of `str.startswith`. -/
def strStarts (s pre : String) : Bool := startsSeg pre.data s.data

/-- Character-level model of `str.endswith`. -/
def strEnds (s suf : String) : Bool := startsSeg suf.data.reverse s.data.reverse

/-- Character-level model of the slice `s[n:]`. -/
def strDrop (s : String) (n : Nat) : String := String.mk (s.data.drop n)

/-- Drop the final `n` elements of a list. -/
def dropSuffix (l : List Char) (n : Nat) : List Char := l.take (l.length - n)

/-- Character-level model of the slice `s[:-n]` (for `n ≤ len`). -/
def strDropRight (s : String) (n : Nat) : String := String.mk (dropSuffix s.data n)

/-- Character-level model of `c in s` for a single character. -/
def strHasChar (s : String) (c : Char) : Bool := s.data.contains c

/-- Character-level model of the slice `s[:1]`. -/
def strTake1 (s : String) : String := String.mk (s.data.take 1)

/-- Characters stripped by Python's `str.strip()` (the ASCII whitespace
subset; exotic Unicode whitespace is not modelled). -/
def pyWs (c : Char) : Bool :=
  c = ' ' || c = '\t' || c = '\n' || c = '\r' || c = '\x0b' || c = '\x0c'

/-- Character-level model of `str.strip()`. -/
def pyStrip (s : String) : String :=
  String.mk (((s.data.dropWhile pyWs).reverse.dropWhile pyWs).reverse)

/-- Whether `line.strip()` is falsy, i.e. the string is all whitespace. -/
def strippedEmpty (s : String) : Bool := s.data.all pyWs

/-- Split a character list at the first occurrence of `ch`; models
`str.split(ch, 1)` when `ch` is known to occur. -/
def breakAt (ch : Char) : List Char → List Char × List Char
  | [] => ([], [])
  | c :: cs => if c = ch then ([], cs) else
      let p := breakAt ch cs
      (c :: p.1, p.2)

/-- Model of `term.split(':', 1)` (used only when `':' in term`). -/
def splitMeta (t : String) : String × String :=
  let p := breakAt ':' t.data
  (String.mk p.1, String.mk p.2)

/-- All `sep`-separated segments of a character list (like repeatedly
applying `split(sep, 1)`); always returns at least one segment. -/
def splitSegs (sep : Char) : List Char → List (List Char)
  | [] => [[]]
  | c :: cs =>
    match splitSegs sep cs with
    | [] => [[]]
    | seg :: rest => if c = sep then [] :: seg :: rest else (c :: seg) :: rest

/-! ## SQLite `LIKE` matching

`likeSeg pat s` models the default SQLite `LIKE` operator after both
sides have been ASCII-lowercased: `%` matches any sequence, `_` matches
any single character, anything else matches itself. -/

def likeSeg : List Char → List Char → Bool
  | [], [] => true
  | [], _ :: _ => false
  | p :: ps, [] => if p = '%' then likeSeg ps [] else false
  | p :: ps, c :: s =>
    if p = '%' then likeSeg ps (c :: s) || likeSeg (p :: ps) s
    else if p = '_' then likeSeg ps s
    else (p = c) && likeSeg ps s
termination_by p s => (p.length, s.length)

/-- SQLite `value LIKE pattern` (default collation: ASCII case folding on
both sides). -/
def likeCI (s pat : String) : Bool := likeSeg (lowerAscii pat).data (lowerAscii s).data

/-- Case-insensitive (ASCII) substring containment. -/
def containsCI (needle hay : String) : Bool :=
  containsSeg (lowerAscii needle).data (lowerAscii hay).data

/-! ## Integer and decimal parsing

Models of Python's `int(str)` and `float(str)` restricted to the forms
the query language produces: optional surrounding whitespace, an optional
sign and decimal digits (for `float`, also a fractional point). Python's
underscore digit separators and `inf`/`nan`/exponent float syntax are not
modelled; every input the code's grammar can feed these functions is a
plain decimal numeral or a failure in both semantics. -/

/-- Numeric value of a digit list (digits are already validated). -/
def digitsVal (cs : List Char) : Nat :=
  cs.foldl (fun n c => n * 10 + (c.toNat - '0'.toNat)) 0

/-- Sign splitting shared by the numeric parsers. -/
def splitSign : List Char → Bool × List Char
  | '+' :: cs => (false, cs)
  | '-' :: cs => (true, cs)
  | cs => (false, cs)

/-- Model of Python `int(s)`: `none` models a raised `ValueError`. -/
def parsePyInt (s : String) : Option Int :=
  let cs := (pyStrip s).data
  let p := splitSign cs
  if p.2 ≠ [] ∧ p.2.all Char.isDigit then
    some (if p.1 then -(digitsVal p.2 : Int) else (digitsVal p.2 : Int))
  else none

/-- Model of Python `float(s)` as an exact decimal `m / 10 ^ k`;
`none` models a raised `ValueError`. -/
def parsePyDec (s : String) : Option (Int × Nat) :=
  let cs := (pyStrip s).data
  let p := splitSign cs
  let q := breakAt '.' p.2
  if (p.2.contains '.' → ¬ q.2.contains '.') ∧
      q.1.all Char.isDigit ∧ q.2.all Char.isDigit ∧ (q.1 ≠ [] ∨ q.2 ≠ []) then
    let m : Int := (digitsVal (q.1 ++ q.2) : Int)
    some (if p.1 then -m else m, q.2.length)
  else none

/-- Python `int(x)` truncation toward zero of `num / den` (`den > 0`). -/
def pyTruncDiv (num : Int) (den : Nat) : Int :=
  if 0 ≤ num then ((num.toNat / den : Nat) : Int) else -(((-num).toNat / den : Nat) : Int)

/-- Model of `int(float(numStr) * mult)`. The Python code computes this in
binary floating point; the model computes the exact decimal value, which
agrees on every integral byte count the grammar's test points use. -/
def floatTimes (numStr : String) (mult : Nat) : Option Int :=
  (parsePyDec numStr).map (fun md => pyTruncDiv (md.1 * (mult : Int)) (10 ^ md.2))

/-! ## Query tokenizer (`_parse_search_query`)

A single left-to-right scan over the characters with the accumulated
current term and an `in_quotes` flag, exactly mirroring the Python loop. -/

def scanQuery : List Char → List Char → Bool → List (List Char)
  | [], cur, _ => if cur = [] then [] else [cur]
  | c :: cs, cur, inQ =>
    if c = '"' then scanQuery cs cur (!inQ)
    else if c = ' ' ∧ inQ = false then
      if cur = [] then scanQuery cs [] false else cur :: scanQuery cs [] false
    else scanQuery cs (cur ++ [c]) inQ

/-- Model of `DatasetDatabase._parse_search_query`. -/
def parseSearchQuery (q : String) : List String :=
  (scanQuery q.data [] false).map String.mk

/-- Reference splitter used to state the tokenizer's behaviour on inputs
without quotes: maximal nonempty runs of non-space characters. -/
def splitSpacesAux : List Char → List Char → List (List Char)
  | [], cur => if cur = [] then [] else [cur]
  | c :: cs, cur =>
    if c = ' ' then
      if cur = [] then splitSpacesAux cs [] else cur :: splitSpacesAux cs []
    else splitSpacesAux cs (cur ++ [c])

/-- Split a string on spaces, dropping empty chunks. -/
def splitSpaces (s : String) : List String :=
  (splitSpacesAux s.data []).map String.mk

/-! ## The store (`DatasetDatabase`)

`posts` rows carry the full column list of `_create_tables`. `INTEGER`
columns are modelled as `Option Int` and `TEXT` columns as
`Option String` (`none` = SQL `NULL`); SQLite's dynamic typing beyond the
declared column types is not exercised by the code. `post_id` is
`NOT NULL` and `md5` is `UNIQUE`, both enforced at insertion exactly as
SQLite enforces them (`NULL` never collides with `NULL`; any two equal
non-NULL values collide, including the empty string). -/

/-- One decoded JSON record, as consumed by `insert_post`/`insert_batch`
via `data.get(...)` (absent key = `none` = SQL `NULL`). -/
structure RecordData where
  id : Option Int
  md5 : Option String
  url : Option String
  file_url : Option String
  tags : Option String
  tag_string : Option String
  rating : Option String
  file_ext : Option String
  source : Option String
  created_at : Option String
  score : Option Int
  fav_count : Option Int
  image_width : Option Int
  image_height : Option Int
  file_size : Option Int
  description : Option String
  regular_summary : Option String
  individual_parts : Option String
  midjourney_style_summary : Option String
  deviantart_commission_request : Option String
  brief_summary : Option String
deriving DecidableEq, Repr

/-- A record with every field absent. -/
def emptyRecord : RecordData :=
  ⟨none, none, none, none, none, none, none, none, none, none, none,
   none, none, none, none, none, none, none, none, none, none⟩

/-- One persisted row of the `posts` table. -/
structure PostRow where
  rowid : Nat
  post_id : Int
  md5 : Option String
  url : Option String
  tags : Option String
  tag_string : Option String
  rating : Option String
  file_ext : Option String
  source : Option String
  created_at : Option String
  score : Option Int
  fav_count : Option Int
  image_width : Option Int
  image_height : Option Int
  file_size : Option Int
  description : Option String
  regular_summary : Option String
  individual_parts : Option String
  midjourney_style_summary : Option String
  deviantart_commission_request : Option String
  brief_summary : Option String
deriving DecidableEq, Repr

/-- The whole persisted state: the `posts` table (in rowid order), the
`AUTOINCREMENT` counter, and the `processed_files` ledger
(filename, file_hash). -/
structure Db where
  posts : List PostRow
  nextId : Nat
  processed : List (String × Option String)
deriving DecidableEq, Repr

/-- A freshly created database. -/
def emptyDb : Db := ⟨[], 1, []⟩

/-- Python truthiness of an optional string (`None` and `""` are falsy). -/
def truthyStr : Option String → Bool
  | none => false
  | some s => !(s.data = [])

/-- Model of `DatasetDatabase.is_file_processed`. -/
def isFileProcessed (db : Db) (filename : String) : Bool :=
  db.processed.any (fun e => e.1 = filename)

/-- Model of `DatasetDatabase.mark_file_processed` (`INSERT OR REPLACE` keyed on
the unique `filename`). -/
def markFileProcessed (db : Db) (filename : String) (fileHash : Option String) : Db :=
  { db with processed := db.processed.filter (fun e => ¬ e.1 = filename) ++ [(filename, fileHash)] }

/-- Model of `DatasetDatabase.post_exists`. -/
def postExists (db : Db) (md5 : Option String) : Bool :=
  if truthyStr md5 then db.posts.any (fun p => p.md5 = md5) else false

/-- The row built by the `INSERT INTO posts ...` statement
(`url` is `data.get('url') or data.get('file_url')`). -/
def mkRow (db : Db) (d : RecordData) (pid : Int) : PostRow :=
  { rowid := db.nextId, post_id := pid, md5 := d.md5,
    url := if truthyStr d.url then d.url else d.file_url,
    tags := d.tags, tag_string := d.tag_string, rating := d.rating,
    file_ext := d.file_ext, source := d.source, created_at := d.created_at,
    score := d.score, fav_count := d.fav_count, image_width := d.image_width,
    image_height := d.image_height, file_size := d.file_size,
    description := d.description, regular_summary := d.regular_summary,
    individual_parts := d.individual_parts,
    midjourney_style_summary := d.midjourney_style_summary,
    deviantart_commission_request := d.deviantart_commission_request,
    brief_summary := d.brief_summary }

/-- Append a row that passed every constraint. -/
def pushRow (db : Db) (d : RecordData) (pid : Int) : Db :=
  { db with posts := db.posts ++ [mkRow db d pid], nextId := db.nextId + 1 }

/-- One attempted `INSERT INTO posts`: `false` models a caught
`sqlite3.IntegrityError` (a `NOT NULL` violation on `post_id`, or a
`UNIQUE` violation on a non-NULL `md5`). -/
def tryInsertRow (db : Db) (d : RecordData) : Bool × Db :=
  match d.id with
  | none => (false, db)
  | some pid =>
    match d.md5 with
    | some s => if db.posts.any (fun p => p.md5 = some s) then (false, db) else (true, pushRow db d pid)
    | none => (true, pushRow db d pid)

/-- Model of `DatasetDatabase.insert_post`. -/
def insertPost (db : Db) (d : RecordData) : Bool × Db :=
  if truthyStr d.md5 ∧ postExists db d.md5 = true then (false, db)
  else tryInsertRow db d

/-- Model of `DatasetDatabase.insert_batch`: per-record inserts inside one
transaction, `IntegrityError`s skipped. -/
def insertBatch (db : Db) (ds : List RecordData) : Nat × Db :=
  ds.foldl (fun acc d =>
    let r := tryInsertRow acc.2 d
    (acc.1 + (if r.1 then 1 else 0), r.2)) (0, db)

/-! ## Query compiler (`search_posts` and its helpers)

The source builds a SQL string plus a parameter list. The embedding keeps
the same two-list shape: each `sql += "... ?"` step appends one `Atom`
(carrying the number of `?` placeholders it contributes) and each
`params.append(...)` appends one `PVal`. Keeping the two lists separate is
essential: the `except ValueError: pass` in `_add_numeric_condition` can
leave a placeholder without a parameter, and `cursor.execute` then fails
with a binding-count error, which the executor below reproduces. -/

/-- Comparison operator of a numeric condition. -/
inductive CmpOp
  | eq | ge | le | gt | lt
deriving DecidableEq, Repr

/-- The numeric columns `_add_numeric_condition` is called on. -/
inductive NumCol
  | score | fav_count | image_width | image_height | file_size | post_id
deriving DecidableEq, Repr

/-- One appended SQL fragment, identified by its shape; the payload values
live in the parameter list. `orGroup n` is the single parenthesized
disjunction of `n` `tag_string LIKE ?` tests appended for the OR group. -/
inductive Atom
  | ratingEq
  | ratingNeqOrNull
  | typeEq
  | typeNeqOrNull
  | tagLike
  | tagNotLike
  | numCmp (col : NumCol) (op : CmpOp)
  | orGroup (n : Nat)
deriving DecidableEq, Repr

/-- One bound SQL parameter. -/
inductive PVal
  | str (s : String)
  | int (n : Int)
deriving DecidableEq, Repr

/-- Number of `?` placeholders an atom contributes. -/
def arity : Atom → Nat
  | .orGroup n => n
  | _ => 1

/-- Model of `_add_numeric_condition` on the accumulated (sql, params) pair. The
result is `none` when the `int()` call of an operator-prefixed branch
raises an uncaught `ValueError`. In the final exact-match branch the
source appends the placeholder *before* parsing and catches the
`ValueError`, so a failed parse leaves the placeholder without a bound
parameter. `value` is an `int` (from `_parse_filesize`) or a string. -/
def addNumericCondition (acc : List Atom × List PVal) (col : NumCol) (v : PVal) :
    Option (List Atom × List PVal) :=
  match v with
  | .int n => some (acc.1 ++ [.numCmp col .eq], acc.2 ++ [.int n])
  | .str s =>
    if strStarts s ">=" then
      (parsePyInt (strDrop s 2)).map (fun n => (acc.1 ++ [.numCmp col .ge], acc.2 ++ [.int n]))
    else if strStarts s "<=" then
      (parsePyInt (strDrop s 2)).map (fun n => (acc.1 ++ [.numCmp col .le], acc.2 ++ [.int n]))
    else if strStarts s ">" then
      (parsePyInt (strDrop s 1)).map (fun n => (acc.1 ++ [.numCmp col .gt], acc.2 ++ [.int n]))
    else if strStarts s "<" then
      (parsePyInt (strDrop s 1)).map (fun n => (acc.1 ++ [.numCmp col .lt], acc.2 ++ [.int n]))
    else
      match parsePyInt s with
      | some n => some (acc.1 ++ [.numCmp col .eq], acc.2 ++ [.int n])
      | none => some (acc.1 ++ [.numCmp col .eq], acc.2)

/-- The size-suffix table of `_parse_filesize`, in its insertion order:
the `'b'` entry is tested first by the `for` loop. -/
def sizeSuffixes : List (String × Nat) :=
  [("b", 1), ("kb", 1024), ("mb", 1024 * 1024), ("gb", 1024 * 1024 * 1024)]

/-- Body of the matched-suffix branch of `_parse_filesize`: the numeric
part may carry an operator, and the whole branch returns `None` on a
caught `ValueError`. Operator results are re-rendered as strings, exactly
as the source's f-strings do. -/
def sizeWithMult (num : String) (mult : Nat) : Option PVal :=
  if strStarts num ">=" then
    (floatTimes (strDrop num 2) mult).map (fun n => PVal.str (">=" ++ toString n))
  else if strStarts num "<=" then
    (floatTimes (strDrop num 2) mult).map (fun n => PVal.str ("<=" ++ toString n))
  else if strStarts num ">" then
    (floatTimes (strDrop num 1) mult).map (fun n => PVal.str (">" ++ toString n))
  else if strStarts num "<" then
    (floatTimes (strDrop num 1) mult).map (fun n => PVal.str ("<" ++ toString n))
  else (floatTimes num mult).map PVal.int

/-- Model of `DatasetDatabase._parse_filesize`; `none` models returning `None`. -/
def parseFilesize (s : String) : Option PVal :=
  let v := pyStrip (lowerAscii s)
  match sizeSuffixes.find? (fun p => strEnds v p.1) with
  | some p => sizeWithMult (strDropRight v p.1.length) p.2
  | none =>
    if strStarts v ">=" then (parsePyInt (strDrop v 2)).map (fun n => PVal.str (">=" ++ toString n))
    else if strStarts v "<=" then (parsePyInt (strDrop v 2)).map (fun n => PVal.str ("<=" ++ toString n))
    else if strStarts v ">" then (parsePyInt (strDrop v 1)).map (fun n => PVal.str (">" ++ toString n))
    else if strStarts v "<" then (parsePyInt (strDrop v 1)).map (fun n => PVal.str ("<" ++ toString n))
    else (parsePyInt v).map PVal.int

/-- The `%...%` wrapping of a LIKE parameter. -/
def wrapLike (t : String) : String := "%" ++ t ++ "%"

/-- The wildcard translation `term.replace('*', '%')`. -/
def starToPct (t : String) : String :=
  String.mk (t.data.map (fun c => if c = '*' then '%' else c))

/-- Computation `value.lower()[:1]` as used for ratings. -/
def take1Lower (v : String) : String := strTake1 (lowerAscii v)

/-- Accumulator of the per-term loop in `search_posts`: the sql atoms, the
bound parameters, and the `or_tags` list collected for the OR group. -/
structure CompAcc where
  atoms : List Atom
  params : List PVal
  orTags : List String
deriving DecidableEq, Repr

/-- The non-`~` branches of the per-term loop. In the source these only
ever thread `(sql, params)`; the embedding keeps exactly that pair.
`none` models an uncaught `ValueError` escaping from
`_add_numeric_condition`. (The source's local bindings
`neg_term = term[1:]`, `key, value = term.split(':', 1)`,
`key = key.lower()` are written inline as `strDrop term 1`, `splitMeta`,
`lowerAscii`.) -/
def processMetaTerm (ap : List Atom × List PVal) (term : String) :
    Option (List Atom × List PVal) :=
  if strStarts term "-" then
    if strHasChar (strDrop term 1) ':' then
      if lowerAscii (splitMeta (strDrop term 1)).1 = "rating" then
        some (ap.1 ++ [.ratingNeqOrNull],
              ap.2 ++ [.str (take1Lower (splitMeta (strDrop term 1)).2)])
      else if lowerAscii (splitMeta (strDrop term 1)).1 = "type" then
        some (ap.1 ++ [.typeNeqOrNull],
              ap.2 ++ [.str (lowerAscii (splitMeta (strDrop term 1)).2)])
      else
        some (ap.1 ++ [.tagNotLike], ap.2 ++ [.str (wrapLike (strDrop term 1))])
    else
      some (ap.1 ++ [.tagNotLike], ap.2 ++ [.str (wrapLike (strDrop term 1))])
  else if strHasChar term ':' then
    if lowerAscii (splitMeta term).1 = "rating" then
      some (ap.1 ++ [.ratingEq], ap.2 ++ [.str (take1Lower (splitMeta term).2)])
    else if lowerAscii (splitMeta term).1 = "score" then
      addNumericCondition ap .score (.str (splitMeta term).2)
    else if lowerAscii (splitMeta term).1 = "favcount" ∨
        lowerAscii (splitMeta term).1 = "fav_count" ∨
        lowerAscii (splitMeta term).1 = "favorites" then
      addNumericCondition ap .fav_count (.str (splitMeta term).2)
    else if lowerAscii (splitMeta term).1 = "type" ∨
        lowerAscii (splitMeta term).1 = "filetype" ∨
        lowerAscii (splitMeta term).1 = "file_type" then
      some (ap.1 ++ [.typeEq], ap.2 ++ [.str (lowerAscii (splitMeta term).2)])
    else if lowerAscii (splitMeta term).1 = "width" then
      addNumericCondition ap .image_width (.str (splitMeta term).2)
    else if lowerAscii (splitMeta term).1 = "height" then
      addNumericCondition ap .image_height (.str (splitMeta term).2)
    else if lowerAscii (splitMeta term).1 = "filesize" ∨
        lowerAscii (splitMeta term).1 = "file_size" ∨
        lowerAscii (splitMeta term).1 = "size" then
      match parseFilesize (splitMeta term).2 with
      | some sizeBytes => addNumericCondition ap .file_size sizeBytes
      | none => some ap
    else if lowerAscii (splitMeta term).1 = "id" then
      addNumericCondition ap .post_id (.str (splitMeta term).2)
    else
      some (ap.1 ++ [.tagLike], ap.2 ++ [.str (wrapLike term)])
  else if strHasChar term '*' then
    some (ap.1 ++ [.tagLike], ap.2 ++ [.str (wrapLike (starToPct term))])
  else
    some (ap.1 ++ [.tagLike], ap.2 ++ [.str (wrapLike term)])

/-- One iteration of the per-term loop of `search_posts`: a `~` token
goes to the `or_tags` list and `continue`s; every other token updates
only `(sql, params)` through `processMetaTerm`. -/
def processTerm (acc : CompAcc) (term : String) : Option CompAcc :=
  if strStarts term "~" then
    some { acc with orTags := acc.orTags ++ [strDrop term 1] }
  else
    (processMetaTerm (acc.atoms, acc.params) term).map
      (fun p => { acc with atoms := p.1, params := p.2 })

/-- The whole per-term loop. -/
def processTerms : CompAcc → List String → Option CompAcc
  | acc, [] => some acc
  | acc, t :: ts =>
    match processTerm acc t with
    | none => none
    | some acc2 => processTerms acc2 ts

/-- Compilation phase of `search_posts`: from the optional query string to
the atoms and parameters of the WHERE clause (the OR group appended after
the loop). `none` models an uncaught `ValueError`. -/
def compileSearch (query : Option String) : Option (List Atom × List PVal) :=
  match query with
  | none => some ([], [])
  | some q =>
    if q.data = [] then some ([], [])
    else
      match processTerms ⟨[], [], []⟩ (parseSearchQuery q) with
      | none => none
      | some acc =>
        if acc.orTags = [] then some (acc.atoms, acc.params)
        else some (acc.atoms ++ [.orGroup acc.orTags.length],
                   acc.params ++ acc.orTags.map (fun t => .str (wrapLike t)))

/-! ## Query executor

Models `cursor.execute(sql, params)` + `fetchall()` for the statements
`search_posts` builds, with SQLite's observable behaviour: a binding-count
mismatch raises (modelled `none`); comparisons and `LIKE`/`NOT LIKE`
against a `NULL` column yield SQL `NULL` and the row is filtered out;
`=`/`!=` on strings are case-sensitive while `LIKE` folds ASCII case;
rows come back ordered by `post_id DESC`, truncated by `LIMIT`. -/

/-- The numeric column referenced by a `numCmp` atom. -/
def colVal (p : PostRow) : NumCol → Option Int
  | .score => p.score
  | .fav_count => p.fav_count
  | .image_width => p.image_width
  | .image_height => p.image_height
  | .file_size => p.file_size
  | .post_id => some p.post_id

/-- Comparison `column OP parameter` on integers. -/
def cmpInt : CmpOp → Int → Int → Bool
  | .eq, a, b => a = b
  | .ge, a, b => b ≤ a
  | .le, a, b => a ≤ b
  | .gt, a, b => b < a
  | .lt, a, b => a < b

/-- Test `tag_string LIKE ?` (NULL yields false). -/
def tagLikeP (p : PostRow) (pat : String) : Bool :=
  match p.tag_string with
  | none => false
  | some t => likeCI t pat

/-- Truth of one WHERE fragment on one row, given its bound parameters. -/
def evalAtom (p : PostRow) : Atom → List PVal → Bool
  | .ratingEq, [.str s] => p.rating = some s
  | .ratingNeqOrNull, [.str s] => p.rating = none ∨ ¬ p.rating = some s
  | .typeEq, [.str s] => p.file_ext = some s
  | .typeNeqOrNull, [.str s] => p.file_ext = none ∨ ¬ p.file_ext = some s
  | .tagLike, [.str pat] => tagLikeP p pat
  | .tagNotLike, [.str pat] =>
    match p.tag_string with
    | none => false
    | some t => !likeCI t pat
  | .numCmp col op, [.int n] =>
    match colVal p col with
    | none => false
    | some v => cmpInt op v n
  | .orGroup _, args =>
    args.any (fun a =>
      match a with
      | .str pat => tagLikeP p pat
      | .int _ => false)
  | _, _ => false

/-- Associate each atom with its parameters, in order; `none` when the
parameter list runs out before the placeholders do. The leftover
parameters are returned for the `LIMIT ?` placeholder check. -/
def pairParams : List Atom → List PVal → Option (List (Atom × List PVal) × List PVal)
  | [], ps => some ([], ps)
  | a :: as, ps =>
    if arity a ≤ ps.length then
      match pairParams as (ps.drop (arity a)) with
      | none => none
      | some r => some ((a, ps.take (arity a)) :: r.1, r.2)
    else none

/-- A row of the result set: `SELECT id, post_id, tag_string`. -/
structure SearchRow where
  rowid : Nat
  post_id : Int
  tag_string : Option String
deriving DecidableEq, Repr

/-- The `ORDER BY post_id DESC` ordering. -/
def postDescRel : PostRow → PostRow → Prop := fun a b => b.post_id ≤ a.post_id

instance : DecidableRel postDescRel :=
  fun a b => inferInstanceAs (Decidable (b.post_id ≤ a.post_id))

instance : IsTrans PostRow postDescRel := ⟨fun _ _ _ hab hbc => le_trans hbc hab⟩

instance : IsTotal PostRow postDescRel := ⟨fun a b => le_total b.post_id a.post_id⟩

/-- Sorting of the result rows (`ORDER BY post_id DESC`; SQLite does not
fix the order of ties, the model picks insertion sort's). -/
def sortByPostIdDesc (l : List PostRow) : List PostRow := List.insertionSort postDescRel l

/-- Model of `DatasetDatabase.search_posts`; `none` models a raised exception:
either the `ValueError` from compilation or the binding-count error from
`cursor.execute`. The executed statement filters the posts by the
conjunction of all fragments, orders by `post_id` descending and
truncates at the `LIMIT ?` parameter. -/
def searchPosts (db : Db) (query : Option String) (limit : Nat) : Option (List SearchRow) :=
  match compileSearch query with
  | none => none
  | some c =>
    match pairParams c.1 (c.2 ++ [PVal.int (limit : Int)]) with
    | none => none
    | some r =>
      match r.2 with
      | [PVal.int l] =>
        some ((((sortByPostIdDesc (db.posts.filter
            (fun p => r.1.all (fun pc => evalAtom p pc.1 pc.2)))).map
          (fun p => SearchRow.mk p.rowid p.post_id p.tag_string)).take l.toNat))
      | _ => none

/-- Shorthand for `search_posts` with its default `limit=50000`. -/
def searchPostsDefault (db : Db) (query : Option String) : Option (List SearchRow) :=
  searchPosts db query 50000

/-- Case-insensitive tag containment on a row (`NULL` tag string matches
nothing), the semantic reading of one OR-group member. -/
def tagHasCI (p : PostRow) (t : String) : Bool :=
  match p.tag_string with
  | none => false
  | some s => containsCI t s

/-! ## Stream ingestor (`DatasetDownloader`)

External collaborators are an explicit environment: the remote listing
(`list_repo_files`), the per-file chunk stream (`requests.get` with
`iter_content`, `.error` covering both the network exception and
`raise_for_status`), and `json.loads` (`none` = `JSONDecodeError`). The
cancellation `threading.Event` is modelled by `cancelAt`: the flag is
observed set at every cancellation check from that check index on (the
worker checks it at the top of the per-file loop and at the top of the
per-chunk loop; a counter numbers those checks). Progress callbacks are
advisory prints/UI updates and are not modelled. -/

structure IngestEnv where
  listing : Except Unit (List String)
  fetch : String → Except Unit (List String)
  decode : String → Option RecordData
  cancelAt : Option Nat
  fileLimit : Option Nat

/-- Whether `cancel_flag.is_set()` is true at check number `clock`. -/
def isCancelled (env : IngestEnv) (clock : Nat) : Bool :=
  match env.cancelAt with
  | none => false
  | some t => t ≤ clock

/-- Model of the `while '\n' in buffer` loop head: the complete lines
split off the buffer and the remaining partial line. -/
def splitCompleteLines (buffer : String) : List String × String :=
  let segs := splitSegs '\n' buffer.data
  (segs.dropLast.map String.mk, String.mk (segs.getLastD []))

/-- In-flight state of `_stream_process_file`: the line-reassembly
buffer, the pending batch, the running `posts_added` count, the store,
and the cancellation-check counter. -/
structure StreamSt where
  buffer : String
  batch : List RecordData
  added : Nat
  db : Db
  clock : Nat
deriving DecidableEq, Repr

/-- Handling of one complete line: skip when blank, decode (discard the
line on `JSONDecodeError`), append to the batch, and flush through
`insert_batch` when the batch reaches `batch_size = 1000`. -/
def handleLine (env : IngestEnv) (st : StreamSt) (line : String) : StreamSt :=
  if strippedEmpty line then st
  else
    match env.decode line with
    | none => st
    | some d =>
      let batch := st.batch ++ [d]
      if 1000 ≤ batch.length then
        let r := insertBatch st.db batch
        { st with batch := [], added := st.added + r.1, db := r.2 }
      else { st with batch := batch }

/-- The per-chunk loop of `_stream_process_file`. A cancellation check is
consumed at the top of each iteration; once it observes the flag the loop
breaks, leaving buffer and batch as they stand. Falsy (empty) chunks are
skipped without touching the buffer. -/
def processChunks (env : IngestEnv) : List String → StreamSt → StreamSt
  | [], st => st
  | chunk :: rest, st =>
    if isCancelled env st.clock then { st with clock := st.clock + 1 }
    else
      let st1 : StreamSt := { st with clock := st.clock + 1 }
      if chunk.data = [] then processChunks env rest st1
      else
        let lb := splitCompleteLines (st1.buffer ++ chunk)
        processChunks env rest (lb.1.foldl (handleLine env) { st1 with buffer := lb.2 })

/-- Model of `DatasetDownloader._stream_process_file`, returning
`(posts_added, store, clock)`. A fetch-level failure is caught by the
function's own blanket `except` and yields `posts_added = 0`. After the
chunk loop ends — normally or via the cancellation break — the source
still decodes a nonempty trailing buffer and flushes the remaining
batch. -/
def streamProcessFile (env : IngestEnv) (db : Db) (filename : String) (clock : Nat) :
    Nat × Db × Nat :=
  match env.fetch filename with
  | .error _ => (0, db, clock)
  | .ok chunks =>
    let st := processChunks env chunks ⟨"", [], 0, db, clock⟩
    let st :=
      if strippedEmpty st.buffer then st
      else
        match env.decode st.buffer with
        | none => st
        | some d => { st with batch := st.batch ++ [d] }
    if st.batch = [] then (st.added, st.db, st.clock)
    else
      let r := insertBatch st.db st.batch
      (st.added + r.1, r.2, st.clock)

/-- The per-file loop of `download_and_process`: cancellation is checked
at the top, the file is streamed, and `mark_file_processed` runs on every
path on which `_stream_process_file` returns (its blanket `except` means
it returns normally after fetch failures and after a cancellation
break). -/
def processFiles (env : IngestEnv) : List String → Db → Nat → Nat → Db × Nat
  | [], db, added, _ => (db, added)
  | f :: fs, db, added, clock =>
    if isCancelled env clock then (db, added)
    else
      let r := streamProcessFile env db f (clock + 1)
      processFiles env fs (markFileProcessed r.2.1 f none) (added + r.1) r.2.2

/-- Lexicographic-by-code-point comparison of strings, as Python's
`sorted` uses on `str`. -/
def lexLe : List Char → List Char → Bool
  | [], _ => true
  | _ :: _, [] => false
  | a :: as, b :: bs => if a = b then lexLe as bs else decide (a < b)

/-- Stable insertion of a string into a lexicographically sorted list. -/
def insertStrLe (s : String) : List String → List String
  | [] => [s]
  | t :: ts => if lexLe s.data t.data then s :: t :: ts else t :: insertStrLe s ts

/-- Python `sorted` on a list of filenames. -/
def sortStrings : List String → List String
  | [] => []
  | s :: ss => insertStrLe s (sortStrings ss)

/-- Model of `DatasetDownloader.get_jsonl_files`: list, filter on the `.jsonl`
extension, sort; a listing failure is caught and becomes the empty
list. -/
def getJsonlFiles (env : IngestEnv) : List String :=
  match env.listing with
  | .error _ => []
  | .ok fs => sortStrings (fs.filter (fun f => strEnds f ".jsonl"))

/-- The `if self.file_limit:` cap (falsy `None`/`0` means no cap). -/
def applyFileLimit (env : IngestEnv) (fs : List String) : List String :=
  match env.fileLimit with
  | none => fs
  | some n => if n = 0 then fs else fs.take n

/-- Model of `DatasetDownloader.download_and_process`, returning the final store
and the run's `posts_added` total. Already-processed files are excluded
up front against the initial store, and an empty worklist returns
immediately. -/
def downloadAndProcess (env : IngestEnv) (db : Db) : Db × Nat :=
  let filesToProcess :=
    (applyFileLimit env (getJsonlFiles env)).filter (fun f => !isFileProcessed db f)
  if filesToProcess = [] then (db, 0)
  else processFiles env filesToProcess db 0 0

/-! ## Store invariant and concrete store fixtures -/

/-- The dedupe invariant stated by the spec: at most one persisted record
per non-empty content hash. (Searches and `get` do not mutate the store
at all — in the embedding they are plain functions of `Db` — so the
inserting operations and the ledger update are the only state changes to
consider.) -/
def hashUnique (db : Db) : Prop :=
  ∀ s : String, ¬ s.data = [] → (db.posts.filter (fun p => p.md5 = some s)).length ≤ 1

/-- A record with `md5` the empty string (a falsy hash for the Python
pre-check, but a non-NULL value for the `UNIQUE` constraint). -/
def c5recE1 : RecordData := { emptyRecord with id := some 1, md5 := some "" }

/-- A second, distinct record whose `md5` is also the empty string. -/
def c5recE2 : RecordData := { emptyRecord with id := some 2, md5 := some "" }

/-- A store already holding one row with the empty-string hash. -/
def c5dbE : Db := (insertPost emptyDb c5recE1).2

/-- A record with content hash `h1`. -/
def c5recH1 : RecordData := { emptyRecord with id := some 1, md5 := some "h1" }

/-- A store already holding the `h1` record. -/
def c5dbH1 : Db := (insertPost emptyDb c5recH1).2

/-- A record duplicating the stored `h1` hash (different source id). -/
def c5recDup : RecordData := { emptyRecord with id := some 10, md5 := some "h1" }

/-- A novel record with fresh content hash `h2`. -/
def c5recNovel : RecordData := { emptyRecord with id := some 11, md5 := some "h2" }

/-- A hashless record (NULL `md5`) with a valid source id. -/
def c6recNoHash : RecordData := { emptyRecord with id := some 7 }

/-- A record whose file size is exactly one mebibyte. -/
def c3rec1 : RecordData :=
  { emptyRecord with id := some 1, md5 := some "s1",
                     tag_string := some "alpha", file_size := some 1048576 }

/-- A record whose file size is one mebibyte plus one byte. -/
def c3rec2 : RecordData :=
  { emptyRecord with id := some 2, md5 := some "s2",
                     tag_string := some "beta", file_size := some 1048577 }

/-- A store holding the two file-size boundary records. -/
def c3db : Db := (insertBatch emptyDb [c3rec1, c3rec2]).2

/-! ## Concrete ingestion environments -/

/-- Decoded records delivered by the C1/C4 environments. -/
def c1rec1 : RecordData := { emptyRecord with id := some 101, md5 := some "m1" }

/-- Second streamed record. -/
def c1rec2 : RecordData := { emptyRecord with id := some 102, md5 := some "m2" }

/-- Third streamed record (never reached once cancelled). -/
def c1rec3 : RecordData := { emptyRecord with id := some 103, md5 := some "m3" }

/-- C1's run: one file streamed as two chunks; the cancellation flag
becomes set at check number 2 — the check for the second chunk — i.e.
mid-stream, inside the per-chunk loop (check 0 is the per-file check,
check 1 lets the first chunk through). -/
def c1env : IngestEnv :=
  { listing := .ok ["data1.jsonl"],
    fetch := fun f => if f = "data1.jsonl" then .ok ["L1\nL2", "\nL3"] else .error (),
    decode := fun s =>
      if s = "L1" then some c1rec1
      else if s = "L2" then some c1rec2
      else if s = "L3" then some c1rec3
      else none,
    cancelAt := some 2,
    fileLimit := none }

/-- C4's run: two candidate files; fetching `a.jsonl` fails (network
error / non-success status), `b.jsonl` streams one record. -/
def c4env : IngestEnv :=
  { listing := .ok ["a.jsonl", "b.jsonl"],
    fetch := fun f => if f = "b.jsonl" then .ok ["B1\n"] else .error (),
    decode := fun s => if s = "B1" then some c1rec1 else none,
    cancelAt := none,
    fileLimit := none }

/-- C4's retry run: the same catalog with `a.jsonl` now fetchable. -/
def c4envRetry : IngestEnv :=
  { c4env with
    fetch := fun f =>
      if f = "a.jsonl" then .ok ["A1\n"]
      else if f = "b.jsonl" then .ok ["B1\n"]
      else .error (),
    decode := fun s =>
      if s = "A1" then some c1rec2
      else if s = "B1" then some c1rec1
      else none }

/-- C1's resume run: same file and stream, cancellation never set. -/
def c1envResume : IngestEnv := { c1env with cancelAt := none }

/-! ## Tokenizer lemmas -/

/-- Outside quotes, on quote-free input, the scan agrees with the plain
space splitter. -/
theorem scanQuery_eq_splitSpaces (cs : List Char) :
    ∀ cur, '"' ∉ cs → scanQuery cs cur false = splitSpacesAux cs cur := by
  induction cs with
  | nil => intro cur _; rfl
  | cons c cs ih =>
    intro cur h
    have hc : ¬ c = '"' := fun hc => h (hc ▸ List.mem_cons_self c cs)
    have hcs : '"' ∉ cs := fun hm => h (List.mem_cons_of_mem c hm)
    by_cases hsp : c = ' '
    · subst hsp
      simp [scanQuery, splitSpacesAux, hc, ih _ hcs]
    · simp [scanQuery, splitSpacesAux, hc, hsp, ih _ hcs]

/-- Inside quotes, on quote-free input, every remaining character
(spaces included) is appended to the current term. -/
theorem scanQuery_quoted (cs : List Char) :
    ∀ cur, '"' ∉ cs →
      scanQuery cs cur true = (if cur ++ cs = [] then [] else [cur ++ cs]) := by
  induction cs with
  | nil => intro cur _; simp [scanQuery]
  | cons c cs ih =>
    intro cur h
    have hc : ¬ c = '"' := fun hc => h (hc ▸ List.mem_cons_self c cs)
    have hcs : '"' ∉ cs := fun hm => h (List.mem_cons_of_mem c hm)
    have hsp : ¬ (c = ' ' ∧ true = false) := fun hh => by cases hh.2
    simp only [scanQuery, if_neg hc, if_neg hsp, ih _ hcs]
    have : cur ++ [c] ++ cs ≠ [] := by simp
    rw [if_neg this, if_neg (by simp)]
    simp

/-- The emitted tokens never contain a quote character. -/
theorem scanQuery_no_quote (cs : List Char) :
    ∀ cur inQ t, '"' ∉ cur → t ∈ scanQuery cs cur inQ → '"' ∉ t := by
  induction cs with
  | nil =>
    intro cur inQ t hcur ht
    simp only [scanQuery] at ht
    by_cases hcurnil : cur = []
    · rw [if_pos hcurnil] at ht; cases ht
    · rw [if_neg hcurnil] at ht
      rcases List.mem_singleton.mp ht with rfl
      exact hcur
  | cons c cs ih =>
    intro cur inQ t hcur ht
    simp only [scanQuery] at ht
    by_cases hc : c = '"'
    · rw [if_pos hc] at ht; exact ih _ _ _ hcur ht
    · rw [if_neg hc] at ht
      by_cases hsp : c = ' ' ∧ inQ = false
      · rw [if_pos hsp] at ht
        by_cases hcurnil : cur = []
        · rw [if_pos hcurnil] at ht
          exact ih _ _ _ (by simp) ht
        · rw [if_neg hcurnil] at ht
          rcases List.mem_cons.mp ht with rfl | ht2
          · exact hcur
          · exact ih _ _ _ (by simp) ht2
      · rw [if_neg hsp] at ht
        refine ih _ _ _ ?_ ht
        intro hm
        rcases List.mem_append.mp hm with hm1 | hm2
        · exact hcur hm1
        · exact hc (List.mem_singleton.mp hm2).symm

/-- A closing quote appended at the very end of the input never changes
the scan's output (the final flush ignores the `in_quotes` flag). -/
theorem scanQuery_append_quote (cs : List Char) :
    ∀ cur inQ, scanQuery (cs ++ ['"']) cur inQ = scanQuery cs cur inQ := by
  induction cs with
  | nil => intro cur inQ; simp [scanQuery]
  | cons c cs ih =>
    intro cur inQ
    simp only [List.cons_append, scanQuery]
    by_cases hc : c = '"'
    · rw [if_pos hc, if_pos hc]; exact ih _ _
    · rw [if_neg hc, if_neg hc]
      by_cases hsp : c = ' ' ∧ inQ = false
      · rw [if_pos hsp, if_pos hsp]
        by_cases hcurnil : cur = []
        · rw [if_pos hcurnil, if_pos hcurnil]; exact ih _ _
        · rw [if_neg hcurnil, if_neg hcurnil]; exact congrArg _ (ih _ _)
      · rw [if_neg hsp, if_neg hsp]; exact ih _ _

/-- On input without spaces and quotes, the scan emits the input as one
token appended to the pending term. -/
theorem scanQuery_single (cs : List Char) :
    ∀ cur, (∀ c ∈ cs, ¬ c = ' ' ∧ ¬ c = '"') →
      scanQuery cs cur false = (if cur ++ cs = [] then [] else [cur ++ cs]) := by
  induction cs with
  | nil => intro cur _; simp [scanQuery]
  | cons c cs ih =>
    intro cur h
    have hc := h c (List.mem_cons_self c cs)
    have hrest : ∀ x ∈ cs, ¬ x = ' ' ∧ ¬ x = '"' := fun x hx => h x (List.mem_cons_of_mem c hx)
    have hsp : ¬ (c = ' ' ∧ false = false) := fun hh => hc.1 hh.1
    simp only [scanQuery, if_neg hc.2, if_neg hsp, ih _ hrest]
    have h1 : cur ++ [c] ++ cs ≠ [] := by simp
    have h2 : cur ++ (c :: cs) ≠ [] := by simp
    rw [if_neg h1, if_neg h2]
    simp
    intro hsp2
    exact absurd hsp2 hc.1

/-- C7: query tokenization is the single left-to-right scan `scanQuery`
with an `in_quotes` toggle; it splits on (space) whitespace except
whitespace enclosed in double quotes, which stays inside one token; the
quote characters themselves are stripped from the emitted tokens; and the
input consisting of `fox wolf` wrapped in double quotes yields the single
token `fox wolf`. -/
theorem c7_tokenizer_quotes :
    (∀ q : String, '"' ∉ q.data → parseSearchQuery q = splitSpaces q) ∧
    (∀ s : String, '"' ∉ s.data →
      parseSearchQuery ("\"" ++ s ++ "\"") = if s.data = [] then [] else [s]) ∧
    (∀ q : String, ∀ t ∈ parseSearchQuery q, '"' ∉ t.data) ∧
    parseSearchQuery "\"fox wolf\"" = ["fox wolf"] := by
  refine ⟨?_, ?_, ?_, by decide⟩
  · intro q h
    unfold parseSearchQuery splitSpaces
    rw [scanQuery_eq_splitSpaces q.data [] h]
  · intro s h
    unfold parseSearchQuery
    have hdata : ("\"" ++ s ++ "\"").data = ('"' :: s.data) ++ ['"'] := by
      rw [String.data_append, String.data_append]; rfl
    rw [hdata, scanQuery_append_quote]
    have h1 : scanQuery ('"' :: s.data) [] false = scanQuery s.data [] true := by
      simp [scanQuery]
    rw [h1, scanQuery_quoted s.data [] h]
    by_cases hnil : s.data = []
    · rw [if_pos (by simpa using hnil), if_pos hnil]; rfl
    · rw [if_neg (by simpa using hnil), if_neg hnil]; rfl
  · intro q t ht
    unfold parseSearchQuery at ht
    rcases List.mem_map.mp ht with ⟨u, hu, rfl⟩
    exact scanQuery_no_quote q.data [] false u (by simp) hu

/-- C7 witness: the theorem instantiated at concrete inputs, with its
quote-freeness hypotheses discharged by computation. -/
theorem c7_tokenizer_quotes_witness :
    parseSearchQuery "fox wolf" = splitSpaces "fox wolf" ∧
    parseSearchQuery "\"a b\"" = ["a b"] := by
  refine ⟨c7_tokenizer_quotes.1 "fox wolf" (by decide), ?_⟩
  have h := c7_tokenizer_quotes.2.1 "a b" (by decide)
  rwa [if_neg (by decide)] at h

/-- C10: the tokenizer is total on every input, including unbalanced
quotes: appending the missing closing quote never changes the result (so
a dangling quote is harmless); once a dangling quote opens, the entire
quote-free remainder — whitespace included — is folded into one final
token together with the pending term; a nonempty trailing partial token
is emitted; and `a "b c` tokenizes to `a` and `b c`. -/
theorem c10_unbalanced_quotes :
    (∀ q : String, parseSearchQuery (q ++ "\"") = parseSearchQuery q) ∧
    (∀ t : String, ∀ cur : List Char, '"' ∉ t.data →
      scanQuery ('"' :: t.data) cur false =
        if cur ++ t.data = [] then [] else [cur ++ t.data]) ∧
    (∀ s : String, ¬ s.data = [] → (∀ c ∈ s.data, ¬ c = ' ' ∧ ¬ c = '"') →
      parseSearchQuery s = [s]) ∧
    parseSearchQuery "a \"b c" = ["a", "b c"] := by
  refine ⟨?_, ?_, ?_, by decide⟩
  · intro q
    unfold parseSearchQuery
    rw [String.data_append, show ("\"" : String).data = ['"'] from rfl,
      scanQuery_append_quote]
  · intro t cur h
    have h1 : scanQuery ('"' :: t.data) cur false = scanQuery t.data cur true := by
      simp [scanQuery]
    rw [h1, scanQuery_quoted t.data cur h]
  · intro s hne h
    unfold parseSearchQuery
    rw [scanQuery_single s.data [] h, if_neg (by simpa using hne)]
    rfl

/-- C10 witness: the theorem instantiated at concrete inputs, with its
hypotheses discharged by computation. -/
theorem c10_unbalanced_quotes_witness :
    parseSearchQuery ("x y" ++ "\"") = parseSearchQuery "x y" ∧
    scanQuery ('"' :: ("b c" : String).data) ['x'] false = [['x', 'b', ' ', 'c']] ∧
    parseSearchQuery "abc" = ["abc"] := by
  refine ⟨c10_unbalanced_quotes.1 "x y", ?_,
    c10_unbalanced_quotes.2.2.1 "abc" (by decide) (by decide)⟩
  have h := c10_unbalanced_quotes.2.1 "b c" ['x'] (by decide)
  rwa [if_neg (by decide)] at h

/-! ## Store lemmas -/

/-- Computation of `tryInsertRow` with a missing source id. -/
theorem tryInsertRow_id_none (db : Db) (d : RecordData) (h : d.id = none) :
    tryInsertRow db d = (false, db) := by
  simp [tryInsertRow, h]

/-- Computation of `tryInsertRow` on a hash already in the store. -/
theorem tryInsertRow_dup (db : Db) (d : RecordData) (pid : Int) (s : String)
    (hid : d.id = some pid) (hmd : d.md5 = some s)
    (hany : db.posts.any (fun p => p.md5 = some s) = true) :
    tryInsertRow db d = (false, db) := by
  simp [tryInsertRow, hid, hmd, hany]

/-- Computation of `tryInsertRow` on a hashless record. -/
theorem tryInsertRow_ok_none (db : Db) (d : RecordData) (pid : Int)
    (hid : d.id = some pid) (hmd : d.md5 = none) :
    tryInsertRow db d = (true, pushRow db d pid) := by
  simp [tryInsertRow, hid, hmd]

/-- Computation of `tryInsertRow` on a fresh hash. -/
theorem tryInsertRow_ok_some (db : Db) (d : RecordData) (pid : Int) (s : String)
    (hid : d.id = some pid) (hmd : d.md5 = some s)
    (hany : ¬ db.posts.any (fun p => p.md5 = some s) = true) :
    tryInsertRow db d = (true, pushRow db d pid) := by
  simp [tryInsertRow, hid, hmd, hany]

/-- The `post_exists` pre-check in `insert_post` is subsumed by the
`UNIQUE` constraint: `insert_post` and one batch-element step of
`insert_batch` have identical results on every record and store. -/
theorem insertPost_eq (db : Db) (d : RecordData) : insertPost db d = tryInsertRow db d := by
  unfold insertPost
  split_ifs with h
  · obtain ⟨h1, h2⟩ := h
    cases hid : d.id with
    | none => rw [tryInsertRow_id_none db d hid]
    | some pid =>
      cases hmd : d.md5 with
      | none => rw [hmd] at h1; simp [truthyStr] at h1
      | some s =>
        rw [hmd] at h1 h2
        unfold postExists at h2
        rw [if_pos h1] at h2
        rw [tryInsertRow_dup db d pid s hid hmd h2]
  · rfl

/-- One constraint-checked insert appends at most one row and never
rewrites existing rows. -/
theorem tryInsertRow_posts (db : Db) (d : RecordData) :
    ∃ tail, (tryInsertRow db d).2.posts = db.posts ++ tail ∧ tail.length ≤ 1 := by
  cases hid : d.id with
  | none => exact ⟨[], by rw [tryInsertRow_id_none db d hid]; simp, by simp⟩
  | some pid =>
    cases hmd : d.md5 with
    | none =>
      exact ⟨[mkRow db d pid], by rw [tryInsertRow_ok_none db d pid hid hmd]; rfl, by simp⟩
    | some s =>
      by_cases h : db.posts.any (fun p => p.md5 = some s) = true
      · exact ⟨[], by rw [tryInsertRow_dup db d pid s hid hmd h]; simp, by simp⟩
      · exact ⟨[mkRow db d pid], by rw [tryInsertRow_ok_some db d pid s hid hmd h]; rfl, by simp⟩

/-- One constraint-checked insert preserves hash uniqueness. -/
theorem tryInsertRow_hashUnique (db : Db) (d : RecordData) (h : hashUnique db) :
    hashUnique (tryInsertRow db d).2 := by
  cases hid : d.id with
  | none => rw [tryInsertRow_id_none db d hid]; exact h
  | some pid =>
    have hrow : (mkRow db d pid).md5 = d.md5 := rfl
    cases hmd : d.md5 with
    | none =>
      rw [tryInsertRow_ok_none db d pid hid hmd]
      intro s hs
      unfold pushRow
      simp only [List.filter_append]
      have hnil : (List.filter (fun p => decide (p.md5 = some s)) [mkRow db d pid]) = [] := by
        simp [List.filter, hrow, hmd]
      rw [hnil, List.append_nil]
      exact h s hs
    | some s' =>
      by_cases hany : db.posts.any (fun p => p.md5 = some s') = true
      · rw [tryInsertRow_dup db d pid s' hid hmd hany]; exact h
      · rw [tryInsertRow_ok_some db d pid s' hid hmd hany]
        intro s hs
        unfold pushRow
        simp only [List.filter_append]
        by_cases hss : s' = s
        · subst hss
          have hfilnil : db.posts.filter (fun p => decide (p.md5 = some s')) = [] := by
            rw [List.filter_eq_nil_iff]
            intro p hp
            simp only [decide_eq_true_eq]
            intro hcontra
            exact hany (List.any_eq_true.mpr ⟨p, hp, by simp [hcontra]⟩)
          rw [hfilnil]
          simp [List.filter, hrow, hmd]
        · have hnil : (List.filter (fun p => decide (p.md5 = some s)) [mkRow db d pid]) = [] := by
            have hne : ¬ ((mkRow db d pid).md5 = some s) := by
              rw [hrow, hmd]
              exact fun hc => hss (Option.some.inj hc)
            simp [List.filter, hne]
          rw [hnil, List.append_nil]
          exact h s hs

/-- The second component of the batch fold preserves hash uniqueness,
for any count accumulator. -/
theorem batchFold_hashUnique (ds : List RecordData) :
    ∀ (db : Db) (a : Nat), hashUnique db →
      hashUnique ((ds.foldl (fun acc d =>
        let r := tryInsertRow acc.2 d
        (acc.1 + (if r.1 then 1 else 0), r.2)) (a, db)).2) := by
  induction ds with
  | nil => intro db a h; exact h
  | cons d ds ih =>
    intro db a h
    simp only [List.foldl_cons]
    exact ih _ _ (tryInsertRow_hashUnique db d h)

/-- The second component of the batch fold only ever appends rows. -/
theorem batchFold_posts (ds : List RecordData) :
    ∀ (db : Db) (a : Nat), ∃ tail,
      ((ds.foldl (fun acc d =>
        let r := tryInsertRow acc.2 d
        (acc.1 + (if r.1 then 1 else 0), r.2)) (a, db)).2).posts = db.posts ++ tail := by
  induction ds with
  | nil => intro db a; exact ⟨[], by simp⟩
  | cons d ds ih =>
    intro db a
    simp only [List.foldl_cons]
    obtain ⟨t1, ht1, _⟩ := tryInsertRow_posts db d
    obtain ⟨t2, ht2⟩ := ih (tryInsertRow db d).2 (a + if (tryInsertRow db d).1 then 1 else 0)
    exact ⟨t1 ++ t2, by rw [ht2, ht1, List.append_assoc]⟩

/-- C6: every mutating store operation preserves the dedupe invariant
(at most one persisted row per non-empty content hash); hashless records
(NULL `md5`) are always accepted, so any number of them may coexist; and
the `posts` table is append-only — `insert_post`/`insert_batch` only ever
append rows and `mark_file_processed` does not touch it, so persisted
records are never modified. -/
theorem c6_store_invariant :
    (∀ (db : Db) (d : RecordData), hashUnique db → hashUnique (insertPost db d).2) ∧
    (∀ (db : Db) (ds : List RecordData), hashUnique db → hashUnique (insertBatch db ds).2) ∧
    (∀ (db : Db) (f : String) (h : Option String),
      (markFileProcessed db f h).posts = db.posts) ∧
    (∀ (db : Db) (d : RecordData),
      ∃ tail, (insertPost db d).2.posts = db.posts ++ tail ∧ tail.length ≤ 1) ∧
    (∀ (db : Db) (ds : List RecordData),
      ∃ tail, (insertBatch db ds).2.posts = db.posts ++ tail) ∧
    (∀ (db : Db) (d : RecordData), d.md5 = none → d.id = some 7 →
      (insertPost db d).1 = true) := by
  refine ⟨?_, ?_, fun _ _ _ => rfl, ?_, ?_, ?_⟩
  · intro db d h
    rw [insertPost_eq]
    exact tryInsertRow_hashUnique db d h
  · intro db ds h
    exact batchFold_hashUnique ds db 0 h
  · intro db d
    rw [insertPost_eq]
    exact tryInsertRow_posts db d
  · intro db ds
    exact batchFold_posts ds db 0
  · intro db d hmd hid
    rw [insertPost_eq]
    unfold tryInsertRow
    rw [hid, hmd]

/-- C6 witness: the preservation and acceptance statements applied to a
concrete store and records, hypotheses discharged by evaluation. -/
theorem c6_store_invariant_witness :
    hashUnique (insertPost c5dbH1 c5recNovel).2 ∧
    (insertPost c5dbH1 c6recNoHash).1 = true := by
  constructor
  · refine c6_store_invariant.1 c5dbH1 c5recNovel ?_
    intro s hs
    have : c5dbH1.posts = [mkRow emptyDb c5recH1 1] := by decide
    rw [this]
    cases hfe : (List.filter (fun p => decide (p.md5 = some s)) [mkRow emptyDb c5recH1 1]) with
    | nil => simp [hfe]
    | cons x xs =>
      have hlen := List.length_filter_le (fun p => decide (p.md5 = some s)) [mkRow emptyDb c5recH1 1]
      rw [hfe] at hlen
      simp at hlen
      simp [hfe, hlen]
  · exact c6_store_invariant.2.2.2.2.2 c5dbH1 c6recNoHash rfl rfl

/-- C5 counterexample: the claim's "returns true after persisting
otherwise" branch fails. The store holds one row whose `md5` is the empty
string — so no record with the same *non-empty* content hash exists — yet
inserting a second empty-string-hash record returns `false` and persists
nothing, because the SQLite `UNIQUE` constraint treats the empty string
as an ordinary value while the `post_exists` pre-check treats it as
falsy. -/
theorem c5_counterexample :
    insertPost c5dbE c5recE2 = (false, c5dbE) ∧
    c5recE2.md5 = some "" ∧ ("" : String).data = [] ∧
    (∀ p ∈ c5dbE.posts, p.md5 = some "") := by decide

/-- C5 (amended): `insert` returns `false` without raising whenever the
record's hash — empty or not — already occurs in the store, or the row
violates a table constraint (`post_id NOT NULL`); it returns `true` after
appending the row otherwise. `insert_batch` applies exactly the same
per-record semantics inside its one transaction, and a batch of one
already-stored-hash record plus one novel record returns 1 and adds
exactly the novel record. -/
theorem c5_insert_semantics :
    (∀ (db : Db) (d : RecordData) (s : String), d.md5 = some s →
      (∃ p ∈ db.posts, p.md5 = some s) → insertPost db d = (false, db)) ∧
    (∀ (db : Db) (d : RecordData) (pid : Int), d.id = some pid →
      (∀ s, d.md5 = some s → ∀ p ∈ db.posts, ¬ p.md5 = some s) →
      insertPost db d = (true, pushRow db d pid)) ∧
    (∀ (db : Db) (ds : List RecordData),
      insertBatch db ds = ds.foldl (fun acc d =>
        let r := insertPost acc.2 d
        (acc.1 + (if r.1 then 1 else 0), r.2)) (0, db)) ∧
    insertBatch c5dbH1 [c5recDup, c5recNovel] =
      (1, pushRow c5dbH1 c5recNovel 11) := by
  refine ⟨?_, ?_, ?_, by decide⟩
  · intro db d s hmd ⟨p, hp, hps⟩
    rw [insertPost_eq]
    cases hid : d.id with
    | none => exact tryInsertRow_id_none db d hid
    | some pid =>
      exact tryInsertRow_dup db d pid s hid hmd (List.any_eq_true.mpr ⟨p, hp, by simp [hps]⟩)
  · intro db d pid hid hno
    rw [insertPost_eq]
    cases hmd : d.md5 with
    | none => exact tryInsertRow_ok_none db d pid hid hmd
    | some s =>
      refine tryInsertRow_ok_some db d pid s hid hmd ?_
      rw [List.any_eq_true]
      rintro ⟨p, hp, hps⟩
      exact hno s hmd p hp (by simpa using hps)
  · intro db ds
    unfold insertBatch
    have : (fun (acc : Nat × Db) (d : RecordData) =>
        let r := insertPost acc.2 d
        (acc.1 + (if r.1 then 1 else 0), r.2)) =
      (fun (acc : Nat × Db) (d : RecordData) =>
        let r := tryInsertRow acc.2 d
        (acc.1 + (if r.1 then 1 else 0), r.2)) := by
      funext acc d
      rw [insertPost_eq]
    rw [this]

/-- C5 witness: the amended duplicate and success cases applied to a
concrete store, hypotheses discharged by evaluation. -/
theorem c5_insert_semantics_witness :
    insertPost c5dbH1 c5recDup = (false, c5dbH1) ∧
    insertPost c5dbH1 c5recNovel = (true, pushRow c5dbH1 c5recNovel 11) := by
  constructor
  · refine c5_insert_semantics.1 c5dbH1 c5recDup "h1" rfl ?_
    refine ⟨mkRow emptyDb c5recH1 1, by decide, by decide⟩
  · refine c5_insert_semantics.2.1 c5dbH1 c5recNovel 11 rfl ?_
    intro s hmd p hp
    have hs : s = "h2" := by
      have := Option.some.inj hmd
      exact this.symm
    subst hs
    have hposts : c5dbH1.posts = [mkRow emptyDb c5recH1 1] := by decide
    rw [hposts] at hp
    rcases List.mem_singleton.mp hp with rfl
    decide

/-! ## C3: the size-suffix grammar -/

/-- C3: the size-suffix grammar is broken in the code, contradicting its
own docstring ("e.g. '1mb', '500kb'") and the in-app help text
("filesize:>1mb - File size greater than 1MB"). The suffix loop tests the
bare `b` first, and `1mb`/`500kb`/`2gb` all end in `b`, so the numeric
part keeps a trailing letter, `float` raises, and `_parse_filesize`
returns `None` — only the plain `b` suffix and suffixless byte counts
work. Consequently `filesize:>1mb` adds no predicate at all: the query
returns every record, including one with `byte_size = 1048576`, instead
of excluding it. -/
theorem c3_size_suffix_broken :
    parseFilesize "1mb" = none ∧
    parseFilesize ">1mb" = none ∧
    parseFilesize "500kb" = none ∧
    parseFilesize "2gb" = none ∧
    parseFilesize "100b" = some (PVal.int 100) ∧
    parseFilesize ">1048576" = some (PVal.str ">1048576") ∧
    compileSearch (some "filesize:>1mb") = some ([], []) ∧
    searchPosts c3db (some "filesize:>1mb") 50000 =
      some [⟨2, 2, some "beta"⟩, ⟨1, 1, some "alpha"⟩] := by decide

/-! ## C2: malformed numeric values -/

/-- A query whose tokenization is empty compiles to the empty filter. -/
theorem parseSearchQuery_of_nil (q : String) (h : q.data = []) :
    parseSearchQuery q = [] := by
  unfold parseSearchQuery
  rw [h]
  rfl

/-- Computation of the term loop on a `filesize:` token whose value fails
the size grammar: the token is dropped with no atom and no parameter. -/
theorem processTerm_filesize_drop (acc : CompAcc) (term v : String)
    (h1 : strStarts term "~" = false) (h2 : strStarts term "-" = false)
    (h3 : strHasChar term ':' = true) (h4 : splitMeta term = ("filesize", v))
    (h5 : parseFilesize v = none) :
    processTerm acc term = some acc := by
  simp [processTerm, processMetaTerm, h1, h2, h3, h4, h5, lowerAscii, lowerAsciiChar]

/-- Computation of the term loop on a `score:` token: it defers to
`_add_numeric_condition` on the raw value. -/
theorem processTerm_score_key (acc : CompAcc) (term v : String)
    (h1 : strStarts term "~" = false) (h2 : strStarts term "-" = false)
    (h3 : strHasChar term ':' = true) (h4 : splitMeta term = ("score", v)) :
    processTerm acc term =
      (addNumericCondition (acc.atoms, acc.params) .score (.str v)).map
        (fun p => { acc with atoms := p.1, params := p.2 }) := by
  simp [processTerm, processMetaTerm, h1, h2, h3, h4, lowerAscii, lowerAsciiChar]

/-- Compilation of a query that tokenizes to one single term, in terms of
that term's loop iteration. -/
theorem compileSearch_single (q term : String) (acc : CompAcc)
    (hq : parseSearchQuery q = [term])
    (hr : processTerm ⟨[], [], []⟩ term = some acc) (ho : acc.orTags = []) :
    compileSearch (some q) = some (acc.atoms, acc.params) := by
  have hqne : ¬ q.data = [] := by
    intro hnil
    have h0 := parseSearchQuery_of_nil q hnil
    rw [hq] at h0
    cases h0
  simp only [compileSearch]
  rw [if_neg hqne, hq]
  simp [processTerms, hr, ho]

/-- C2 (amended): the silent lenient drop exists only on the
`filesize`/`file_size`/`size` path, whose `_parse_filesize` catches its
own `ValueError`s — such a token adds no predicate and the query behaves
exactly like the absent query. For the direct numeric keys the claim
fails: a value with a `>=`/`<=`/`>`/`<` prefix whose remainder does not
parse raises `ValueError` out of `_add_numeric_condition` (modelled
`none`), so `search_posts("score:>>5")` raises; and a prefixless
unparsable value is "dropped" only after `sql +=` has already appended
the placeholder, so compilation yields one `score = ?` fragment with no
bound parameter and execution raises the binding-count error (modelled
`none`). -/
theorem c2_numeric_value_handling :
    (∀ (q term v : String) (db : Db) (limit : Nat),
      parseSearchQuery q = [term] →
      strStarts term "~" = false → strStarts term "-" = false →
      strHasChar term ':' = true → splitMeta term = ("filesize", v) →
      parseFilesize v = none →
      searchPosts db (some q) limit = searchPosts db none limit) ∧
    (∀ (acc : List Atom × List PVal) (col : NumCol) (s : String),
      strStarts s ">=" = false → strStarts s "<=" = false →
      strStarts s ">" = true → parsePyInt (strDrop s 1) = none →
      addNumericCondition acc col (.str s) = none) ∧
    (∀ (db : Db) (limit : Nat), searchPosts db (some "score:>>5") limit = none) ∧
    (∀ (q term v : String),
      parseSearchQuery q = [term] →
      strStarts term "~" = false → strStarts term "-" = false →
      strHasChar term ':' = true → splitMeta term = ("score", v) →
      strStarts v ">=" = false → strStarts v "<=" = false →
      strStarts v ">" = false → strStarts v "<" = false →
      parsePyInt v = none →
      compileSearch (some q) = some ([Atom.numCmp NumCol.score CmpOp.eq], []) ∧
      ∀ (db : Db) (limit : Nat), searchPosts db (some q) limit = none) := by
  refine ⟨?_, ?_, ?_, ?_⟩
  · intro q term v db limit hq h1 h2 h3 h4 h5
    have hc : compileSearch (some q) = some ([], []) :=
      compileSearch_single q term ⟨[], [], []⟩ hq
        (processTerm_filesize_drop ⟨[], [], []⟩ term v h1 h2 h3 h4 h5) rfl
    unfold searchPosts
    rw [hc]
    rfl
  · intro acc col s hge hle hgt hint
    simp [addNumericCondition, hge, hle, hgt, hint]
  · intro db limit
    have hc : compileSearch (some "score:>>5") = none := by decide
    unfold searchPosts
    rw [hc]
  · intro q term v hq h1 h2 h3 h4 hge hle hgt hlt hint
    have hnum : addNumericCondition ([], []) .score (.str v) =
        some ([Atom.numCmp NumCol.score CmpOp.eq], []) := by
      simp [addNumericCondition, hge, hle, hgt, hlt, hint]
    have hterm : processTerm ⟨[], [], []⟩ term =
        some ⟨[Atom.numCmp NumCol.score CmpOp.eq], [], []⟩ := by
      rw [processTerm_score_key ⟨[], [], []⟩ term v h1 h2 h3 h4]
      simp only [CompAcc.mk.injEq]
      rw [hnum]
      rfl
    have hc := compileSearch_single q term ⟨[Atom.numCmp NumCol.score CmpOp.eq], [], []⟩
      hq hterm rfl
    refine ⟨hc, ?_⟩
    intro db limit
    unfold searchPosts
    rw [hc]
    rfl

/-- C2 witness: the amended statements instantiated at concrete queries,
hypotheses discharged by evaluation. -/
theorem c2_numeric_value_handling_witness :
    searchPosts emptyDb (some "filesize:abc") 9 = searchPosts emptyDb none 9 ∧
    addNumericCondition ([], []) NumCol.score (.str ">x") = none ∧
    searchPosts emptyDb (some "score:>>5") 50000 = none ∧
    compileSearch (some "score:abc") = some ([Atom.numCmp NumCol.score CmpOp.eq], []) ∧
    searchPosts emptyDb (some "score:abc") 50000 = none := by
  refine ⟨?_, ?_, ?_, ?_, ?_⟩
  · exact c2_numeric_value_handling.1 "filesize:abc" "filesize:abc" "abc" emptyDb 9
      (by decide) (by decide) (by decide) (by decide) (by decide) (by decide)
  · exact c2_numeric_value_handling.2.1 ([], []) NumCol.score ">x"
      (by decide) (by decide) (by decide) (by decide)
  · exact c2_numeric_value_handling.2.2.1 emptyDb 50000
  · exact (c2_numeric_value_handling.2.2.2 "score:abc" "score:abc" "abc"
      (by decide) (by decide) (by decide) (by decide) (by decide)
      (by decide) (by decide) (by decide) (by decide) (by decide)).1
  · exact (c2_numeric_value_handling.2.2.2 "score:abc" "score:abc" "abc"
      (by decide) (by decide) (by decide) (by decide) (by decide)
      (by decide) (by decide) (by decide) (by decide) (by decide)).2 emptyDb 50000

/-- C2 counterexample: the claim as stated is false — searching the query
`score:>>5` does not succeed with an unconstrained filter; it raises
(modelled `none`), unlike the absent query, and so does the prefixless
malformed `score:abc` (binding-count error at execution). -/
theorem c2_counterexample :
    searchPosts emptyDb (some "score:>>5") 50000 = none ∧
    searchPosts emptyDb (some "score:abc") 50000 = none ∧
    ¬ searchPosts emptyDb none 50000 = none := by decide

/-! ## C1 and C4: the ledger after cancellation and fetch failure -/

/-- C1: the code marks a file cancelled mid-stream as processed,
contradicting the claim. In `c1env` the flag becomes set at the per-chunk
check for the second chunk, so the stream is abandoned with record 103
still in flight; `_stream_process_file` then flushes the pending batch
and returns normally, and `download_and_process` runs
`mark_file_processed` unconditionally. Afterwards `has_processed` is
`true` (the claim says it stays `false`), the records committed up to the
cancellation remain in the store, and a future full re-run skips the file
entirely, so record 103 is never ingested. -/
theorem c1_cancelled_file_marked_processed :
    isFileProcessed (downloadAndProcess c1env emptyDb).1 "data1.jsonl" = true ∧
    (downloadAndProcess c1env emptyDb).1.posts.map (fun p => p.post_id) = [101, 102] ∧
    (downloadAndProcess c1envResume (downloadAndProcess c1env emptyDb).1).1.posts.map
      (fun p => p.post_id) = [101, 102] := by decide

/-- C4: the failure-isolation claim holds except for its ledger part. In
`c4env` fetching `a.jsonl` fails; the exception is caught (inside
`_stream_process_file`, not by the `except` in `download_and_process`
written for it) and the run does proceed to `b.jsonl`, whose record is
committed — but `mark_file_processed` still runs for `a.jsonl`, so
`has_processed("a.jsonl")` is `true` (the claim says it stays `false`)
and a retry run with the network restored never re-fetches it. -/
theorem c4_failed_fetch_marked_processed :
    isFileProcessed (downloadAndProcess c4env emptyDb).1 "a.jsonl" = true ∧
    isFileProcessed (downloadAndProcess c4env emptyDb).1 "b.jsonl" = true ∧
    (downloadAndProcess c4env emptyDb).1.posts.map (fun p => p.post_id) = [101] ∧
    (downloadAndProcess c4envRetry (downloadAndProcess c4env emptyDb).1).1.posts.map
      (fun p => p.post_id) = [101] := by decide

/-! ## C9: result shape of search -/

/-- The leftover parameters after pairing are a suffix of the supplied
parameter list. -/
theorem pairParams_rest (atoms : List Atom) :
    ∀ (ps : List PVal) (r : List (Atom × List PVal) × List PVal),
      pairParams atoms ps = some r → ∃ k, r.2 = ps.drop k := by
  induction atoms with
  | nil =>
    intro ps r h
    simp only [pairParams, Option.some.injEq] at h
    exact ⟨0, by rw [← h]; simp⟩
  | cons a as ih =>
    intro ps r h
    simp only [pairParams] at h
    split_ifs at h with hle
    · cases hp : pairParams as (ps.drop (arity a)) with
      | none => rw [hp] at h; cases h
      | some r2 =>
        rw [hp] at h
        simp only [Option.some.injEq] at h
        obtain ⟨k, hk⟩ := ih (ps.drop (arity a)) r2 hp
        refine ⟨k + arity a, ?_⟩
        rw [← h]
        show r2.2 = _
        rw [hk, List.drop_drop, Nat.add_comm (arity a) k]

/-- C9: for every query that compiles and executes (in particular for the
absent and empty query, which always succeed), search returns rows sorted
by `post_id` descending, truncated at the limit, each row the
`(surrogate id, source id, tag string)` projection of a stored post; the
default limit is 50000. -/
theorem c9_search_shape :
    (∀ (db : Db) (query : Option String) (limit : Nat) (rows : List SearchRow),
      searchPosts db query limit = some rows →
      List.Sorted (fun a b : SearchRow => b.post_id ≤ a.post_id) rows ∧
      rows.length ≤ limit ∧
      ∀ r ∈ rows, ∃ p ∈ db.posts, r = ⟨p.rowid, p.post_id, p.tag_string⟩) ∧
    (∀ (db : Db) (limit : Nat),
      (searchPosts db none limit).isSome = true ∧
      (searchPosts db (some "") limit).isSome = true) ∧
    (∀ (db : Db) (query : Option String),
      searchPostsDefault db query = searchPosts db query 50000) := by
  refine ⟨?_, fun db limit => ⟨rfl, rfl⟩, fun db query => rfl⟩
  intro db query limit rows h
  unfold searchPosts at h
  split at h
  · cases h
  · next c hc =>
    split at h
    · cases h
    · next r hpp =>
      obtain ⟨k, hk⟩ := pairParams_rest c.1 _ r hpp
      split at h
      · next l hr2 =>
        simp only [Option.some.injEq] at h
        rw [hr2] at hk
        have hlen : ([PVal.int l].length : Nat) =
            ((c.2 ++ [PVal.int (limit : Int)]).drop k).length := by rw [hk]
        rw [List.length_drop, List.length_append] at hlen
        simp at hlen
        have hkval : k = c.2.length := by omega
        subst hkval
        rw [List.drop_left] at hk
        have hl : l = (limit : Int) := by
          have h2 := hk
          simp at h2
          exact h2
        subst hl
        subst h
        refine ⟨?_, ?_, ?_⟩
        · have hs : List.Sorted postDescRel
              (sortByPostIdDesc (db.posts.filter
                (fun p => r.1.all (fun pc => evalAtom p pc.1 pc.2)))) :=
            List.sorted_insertionSort postDescRel _
          have hmap : List.Sorted (fun a b : SearchRow => b.post_id ≤ a.post_id)
              ((sortByPostIdDesc (db.posts.filter
                (fun p => r.1.all (fun pc => evalAtom p pc.1 pc.2)))).map
                (fun p => SearchRow.mk p.rowid p.post_id p.tag_string)) :=
            hs.map _ (fun a b hab => hab)
          exact hmap.sublist (List.take_sublist _ _)
        · rw [List.length_take]
          simp
        · intro row hrow
          have hrow2 := List.mem_of_mem_take hrow
          rcases List.mem_map.mp hrow2 with ⟨p, hpmem, rfl⟩
          have hp3 : p ∈ db.posts.filter
              (fun p => r.1.all (fun pc => evalAtom p pc.1 pc.2)) :=
            ((List.perm_insertionSort postDescRel _).mem_iff).mp hpmem
          exact ⟨p, List.mem_of_mem_filter hp3, rfl⟩
      · cases h

/-- C9 witness: the shape statement applied to a concrete store, query
and limit, the execution hypothesis discharged by evaluation. -/
theorem c9_search_shape_witness :
    List.Sorted (fun a b : SearchRow => b.post_id ≤ a.post_id)
      [(⟨2, 2, some "beta"⟩ : SearchRow)] ∧
    ([(⟨2, 2, some "beta"⟩ : SearchRow)].length ≤ 1) ∧
    (∀ r ∈ [(⟨2, 2, some "beta"⟩ : SearchRow)], ∃ p ∈ c3db.posts,
      r = ⟨p.rowid, p.post_id, p.tag_string⟩) :=
  c9_search_shape.1 c3db none 1 [⟨2, 2, some "beta"⟩] (by decide)

/-! ## C8: LIKE-pattern lemmas -/

/-- A lone `%` pattern matches every string. -/
theorem likeSeg_pct (s : List Char) : likeSeg ['%'] s = true := by
  induction s with
  | nil => simp [likeSeg]
  | cons c s ih => simp [likeSeg, ih]

/-- A wildcard-free literal followed by `%` matches exactly the strings
starting with the literal. -/
theorem likeSeg_lit (t : List Char) (ht : ∀ c ∈ t, ¬ c = '%' ∧ ¬ c = '_') :
    ∀ s, likeSeg (t ++ ['%']) s = startsSeg t s := by
  induction t with
  | nil => intro s; simpa [startsSeg] using likeSeg_pct s
  | cons a as ih =>
    intro s
    have ha := ht a (List.mem_cons_self a as)
    have hrest : ∀ c ∈ as, ¬ c = '%' ∧ ¬ c = '_' := fun c hc => ht c (List.mem_cons_of_mem a hc)
    cases s with
    | nil => simp [likeSeg, startsSeg, ha.1]
    | cons c s' => simp [likeSeg, startsSeg, ha.1, ha.2, ih hrest s']

/-- The `%t%` pattern for a wildcard-free `t` matches exactly the strings
containing `t`. -/
theorem likeSeg_contains (t : List Char) (ht : ∀ c ∈ t, ¬ c = '%' ∧ ¬ c = '_') :
    ∀ s, likeSeg ('%' :: (t ++ ['%'])) s = containsSeg t s := by
  intro s
  induction s with
  | nil =>
    show likeSeg ('%' :: (t ++ ['%'])) [] = containsSeg t []
    simp [likeSeg, containsSeg, likeSeg_lit t ht]
  | cons c s' ih =>
    show likeSeg ('%' :: (t ++ ['%'])) (c :: s') = containsSeg t (c :: s')
    have hstep : likeSeg ('%' :: (t ++ ['%'])) (c :: s') =
        (likeSeg (t ++ ['%']) (c :: s') || likeSeg ('%' :: (t ++ ['%'])) s') := by
      simp [likeSeg]
    rw [hstep, likeSeg_lit t ht (c :: s'), ih]
    rfl

/-- Matching `tag_string LIKE '%t%'` (with its SQLite ASCII case folding) is
exactly case-insensitive containment of `t`, for wildcard-free `t`. -/
theorem tagLikeP_wrap (p : PostRow) (t : String)
    (ht : ∀ c ∈ (lowerAscii t).data, ¬ c = '%' ∧ ¬ c = '_') :
    tagLikeP p (wrapLike t) = tagHasCI p t := by
  cases hts : p.tag_string with
  | none => simp [tagLikeP, tagHasCI, hts]
  | some s =>
    simp only [tagLikeP, tagHasCI, hts]
    show likeCI s (wrapLike t) = containsCI t s
    unfold likeCI containsCI wrapLike
    have hdata : (lowerAscii ("%" ++ t ++ "%")).data =
        '%' :: ((lowerAscii t).data ++ ['%']) := by
      unfold lowerAscii
      rw [String.data_append, String.data_append]
      simp [lowerAsciiChar]
    rw [hdata, likeSeg_contains (lowerAscii t).data ht]

/-! ## C8: OR-group structure lemmas -/

/-- Helper `_add_numeric_condition` never contributes an OR-group fragment. -/
theorem addNum_noOr (acc : List Atom × List PVal) (col : NumCol) (v : PVal)
    (r : List Atom × List PVal) (h : addNumericCondition acc col v = some r)
    (hno : ∀ n, Atom.orGroup n ∉ acc.1) : ∀ n, Atom.orGroup n ∉ r.1 := by
  cases v with
  | int m =>
    simp only [addNumericCondition, Option.some.injEq] at h
    subst h
    intro n hn
    rcases List.mem_append.mp hn with h1 | h2
    · exact hno n h1
    · cases List.mem_singleton.mp h2
  | str s =>
    simp only [addNumericCondition] at h
    split_ifs at h <;>
      first
      | (rcases Option.map_eq_some'.mp h with ⟨m, hm, rfl⟩
         intro n hn
         rcases List.mem_append.mp hn with h1 | h2
         · exact hno n h1
         · cases List.mem_singleton.mp h2)
      | (split at h <;>
          · injection h with h
            subst h
            intro n hn
            rcases List.mem_append.mp hn with h1 | h2
            · exact hno n h1
            · cases List.mem_singleton.mp h2)

/-- One loop iteration records a `~` token's remainder in the OR list and
leaves it untouched otherwise. -/
theorem processTerm_orTags (acc : CompAcc) (t : String) (acc' : CompAcc)
    (h : processTerm acc t = some acc') :
    acc'.orTags = acc.orTags ++ (if strStarts t "~" then [strDrop t 1] else []) := by
  unfold processTerm at h
  by_cases c : strStarts t "~" = true
  · rw [if_pos c] at h
    injection h with h
    subst h
    rw [if_pos c]
  · rw [if_neg c] at h
    rcases Option.map_eq_some'.mp h with ⟨p, hp, rfl⟩
    rw [if_neg c]
    simp

/-- One loop iteration never emits an OR-group fragment (the single
OR group is appended only after the loop). -/
theorem noOr_append_one (l : List Atom) (a : Atom) (hno : ∀ n, Atom.orGroup n ∉ l)
    (ha : ∀ n, ¬ Atom.orGroup n = a) : ∀ n, Atom.orGroup n ∉ l ++ [a] := by
  intro n hn
  rcases List.mem_append.mp hn with h1 | h2
  · exact hno n h1
  · exact ha n (List.mem_singleton.mp h2)

/-- The meta-term step never emits an OR-group fragment. -/
theorem processMetaTerm_noOr (ap : List Atom × List PVal) (t : String)
    (r : List Atom × List PVal) (h : processMetaTerm ap t = some r)
    (hno : ∀ n, Atom.orGroup n ∉ ap.1) : ∀ n, Atom.orGroup n ∉ r.1 := by
  unfold processMetaTerm at h
  by_cases c1 : strStarts t "-" = true
  · rw [if_pos c1] at h
    by_cases c2 : strHasChar (strDrop t 1) ':' = true
    · rw [if_pos c2] at h
      by_cases c3 : lowerAscii (splitMeta (strDrop t 1)).1 = "rating"
      · rw [if_pos c3] at h
        injection h with h
        subst h
        exact noOr_append_one _ _ hno (fun n hc => Atom.noConfusion hc)
      · rw [if_neg c3] at h
        by_cases c4 : lowerAscii (splitMeta (strDrop t 1)).1 = "type"
        · rw [if_pos c4] at h
          injection h with h
          subst h
          exact noOr_append_one _ _ hno (fun n hc => Atom.noConfusion hc)
        · rw [if_neg c4] at h
          injection h with h
          subst h
          exact noOr_append_one _ _ hno (fun n hc => Atom.noConfusion hc)
    · rw [if_neg c2] at h
      injection h with h
      subst h
      exact noOr_append_one _ _ hno (fun n hc => Atom.noConfusion hc)
  · rw [if_neg c1] at h
    by_cases c5 : strHasChar t ':' = true
    · rw [if_pos c5] at h
      by_cases c6 : lowerAscii (splitMeta t).1 = "rating"
      · rw [if_pos c6] at h
        injection h with h
        subst h
        exact noOr_append_one _ _ hno (fun n hc => Atom.noConfusion hc)
      · rw [if_neg c6] at h
        by_cases c7 : lowerAscii (splitMeta t).1 = "score"
        · rw [if_pos c7] at h
          exact addNum_noOr ap _ _ r h hno
        · rw [if_neg c7] at h
          by_cases c8 : lowerAscii (splitMeta t).1 = "favcount" ∨
              lowerAscii (splitMeta t).1 = "fav_count" ∨
              lowerAscii (splitMeta t).1 = "favorites"
          · rw [if_pos c8] at h
            exact addNum_noOr ap _ _ r h hno
          · rw [if_neg c8] at h
            by_cases c9 : lowerAscii (splitMeta t).1 = "type" ∨
                lowerAscii (splitMeta t).1 = "filetype" ∨
                lowerAscii (splitMeta t).1 = "file_type"
            · rw [if_pos c9] at h
              injection h with h
              subst h
              exact noOr_append_one _ _ hno (fun n hc => Atom.noConfusion hc)
            · rw [if_neg c9] at h
              by_cases c10 : lowerAscii (splitMeta t).1 = "width"
              · rw [if_pos c10] at h
                exact addNum_noOr ap _ _ r h hno
              · rw [if_neg c10] at h
                by_cases c11 : lowerAscii (splitMeta t).1 = "height"
                · rw [if_pos c11] at h
                  exact addNum_noOr ap _ _ r h hno
                · rw [if_neg c11] at h
                  by_cases c12 : lowerAscii (splitMeta t).1 = "filesize" ∨
                      lowerAscii (splitMeta t).1 = "file_size" ∨
                      lowerAscii (splitMeta t).1 = "size"
                  · rw [if_pos c12] at h
                    split at h
                    · exact addNum_noOr ap _ _ r h hno
                    · injection h with h
                      subst h
                      exact hno
                  · rw [if_neg c12] at h
                    by_cases c13 : lowerAscii (splitMeta t).1 = "id"
                    · rw [if_pos c13] at h
                      exact addNum_noOr ap _ _ r h hno
                    · rw [if_neg c13] at h
                      injection h with h
                      subst h
                      exact noOr_append_one _ _ hno (fun n hc => Atom.noConfusion hc)
    · rw [if_neg c5] at h
      by_cases c14 : strHasChar t '*' = true
      · rw [if_pos c14] at h
        injection h with h
        subst h
        exact noOr_append_one _ _ hno (fun n hc => Atom.noConfusion hc)
      · rw [if_neg c14] at h
        injection h with h
        subst h
        exact noOr_append_one _ _ hno (fun n hc => Atom.noConfusion hc)

/-- One loop iteration never emits an OR-group fragment (the single
OR group is appended only after the loop). -/
theorem processTerm_noOr (acc : CompAcc) (t : String) (acc' : CompAcc)
    (h : processTerm acc t = some acc') (hno : ∀ n, Atom.orGroup n ∉ acc.atoms) :
    ∀ n, Atom.orGroup n ∉ acc'.atoms := by
  unfold processTerm at h
  by_cases c : strStarts t "~" = true
  · rw [if_pos c] at h
    injection h with h
    subst h
    exact hno
  · rw [if_neg c] at h
    rcases Option.map_eq_some'.mp h with ⟨p, hp, rfl⟩
    exact processMetaTerm_noOr (acc.atoms, acc.params) t p hp hno

/-- The whole loop collects exactly the stripped `~` tokens, in order,
into the OR list. -/
theorem processTerms_orTags (ts : List String) :
    ∀ (acc acc' : CompAcc), processTerms acc ts = some acc' →
      acc'.orTags = acc.orTags ++
        (ts.filter (fun t => strStarts t "~")).map (fun t => strDrop t 1) := by
  induction ts with
  | nil =>
    intro acc acc' h
    simp only [processTerms, Option.some.injEq] at h
    subst h
    simp
  | cons t ts ih =>
    intro acc acc' h
    simp only [processTerms] at h
    cases hp : processTerm acc t with
    | none => rw [hp] at h; cases h
    | some acc2 =>
      rw [hp] at h
      have h2 := ih acc2 acc' h
      have h1 := processTerm_orTags acc t acc2 hp
      rw [h2, h1]
      by_cases hst : strStarts t "~" = true
      · simp [List.filter_cons, hst, List.append_assoc]
      · simp [List.filter_cons, hst, List.append_assoc]

/-- The whole loop emits no OR-group fragment. -/
theorem processTerms_noOr (ts : List String) :
    ∀ (acc acc' : CompAcc), processTerms acc ts = some acc' →
      (∀ n, Atom.orGroup n ∉ acc.atoms) → ∀ n, Atom.orGroup n ∉ acc'.atoms := by
  induction ts with
  | nil =>
    intro acc acc' h hno
    simp only [processTerms, Option.some.injEq] at h
    subst h
    exact hno
  | cons t ts ih =>
    intro acc acc' h hno
    simp only [processTerms] at h
    cases hp : processTerm acc t with
    | none => rw [hp] at h; cases h
    | some acc2 =>
      rw [hp] at h
      exact ih acc2 acc' h (processTerm_noOr acc t acc2 hp hno)

/-- C8: every `~` token joins the one OR group of the whole query — a
compiled query either has no OR-group fragment at all (when no token
starts with `~`) or ends in exactly one OR-group fragment whose
parameters are the stripped `~` tokens wrapped in `%...%`, conjoined by
AND with all the other (OR-free) fragments; and executing the query
`~fox ~wolf` returns exactly the records whose tag string contains
(ASCII-case-insensitively) `fox` or contains `wolf`. -/
theorem c8_or_group :
    (∀ (q : String) (atoms : List Atom) (params : List PVal),
      compileSearch (some q) = some (atoms, params) →
      ((((parseSearchQuery q).filter (fun t => strStarts t "~")).map
          (fun t => strDrop t 1) = []) → ∀ n, Atom.orGroup n ∉ atoms) ∧
      (∀ ors : List String,
        ((parseSearchQuery q).filter (fun t => strStarts t "~")).map
          (fun t => strDrop t 1) = ors → ¬ ors = [] →
        ∃ front fparams,
          atoms = front ++ [Atom.orGroup ors.length] ∧
          params = fparams ++ ors.map (fun t => PVal.str (wrapLike t)) ∧
          ∀ n, Atom.orGroup n ∉ front)) ∧
    (∀ (db : Db) (limit : Nat),
      searchPosts db (some "~fox ~wolf") limit =
        some (((sortByPostIdDesc (db.posts.filter
            (fun p => tagHasCI p "fox" || tagHasCI p "wolf"))).map
          (fun p => SearchRow.mk p.rowid p.post_id p.tag_string)).take limit)) := by
  constructor
  · intro q atoms params h
    simp only [compileSearch] at h
    split at h
    · next hq =>
      injection h with h
      injection h with h1 h2
      subst h1
      have hnil := parseSearchQuery_of_nil q hq
      rw [hnil]
      refine ⟨fun _ n hn => absurd hn (List.not_mem_nil _), ?_⟩
      intro ors hors hne
      exact absurd hors.symm hne
    · split at h
      · cases h
      · next acc hacc =>
        have horT := processTerms_orTags (parseSearchQuery q) ⟨[], [], []⟩ acc hacc
        simp only [List.nil_append] at horT
        have hnoOr := processTerms_noOr (parseSearchQuery q) ⟨[], [], []⟩ acc hacc
          (fun n hn => absurd hn (List.not_mem_nil _))
        split at h
        · next hot =>
          injection h with h
          injection h with h1 h2
          subst h1
          subst h2
          refine ⟨fun _ => hnoOr, ?_⟩
          intro ors hors hne
          rw [← horT, hot] at hors
          exact absurd hors.symm hne
        · next hot =>
          injection h with h
          injection h with h1 h2
          subst h1
          subst h2
          constructor
          · intro hors
            rw [← horT] at hors
            exact absurd hors hot
          · intro ors hors hne
            rw [← horT] at hors
            subst hors
            exact ⟨acc.atoms, acc.params, rfl, rfl, hnoOr⟩
  · intro db limit
    have hc : compileSearch (some "~fox ~wolf") =
        some ([Atom.orGroup 2], [PVal.str "%fox%", PVal.str "%wolf%"]) := by decide
    have h1 : searchPosts db (some "~fox ~wolf") limit =
        some (((sortByPostIdDesc (db.posts.filter (fun p =>
            List.all [(Atom.orGroup 2, [PVal.str "%fox%", PVal.str "%wolf%"])]
              (fun pc => evalAtom p pc.1 pc.2)))).map
          (fun p => SearchRow.mk p.rowid p.post_id p.tag_string)).take
            (Int.toNat ((limit : Nat) : Int))) := by
      unfold searchPosts
      rw [hc]
      rfl
    rw [h1]
    have hf : db.posts.filter (fun p =>
        List.all [(Atom.orGroup 2, [PVal.str "%fox%", PVal.str "%wolf%"])]
          (fun pc => evalAtom p pc.1 pc.2)) =
      db.posts.filter (fun p => tagHasCI p "fox" || tagHasCI p "wolf") := by
      refine List.filter_congr ?_
      intro p _
      show (evalAtom p (Atom.orGroup 2) [PVal.str "%fox%", PVal.str "%wolf%"] && true) = _
      rw [Bool.and_true]
      show (tagLikeP p "%fox%" || (tagLikeP p "%wolf%" || false)) = _
      rw [Bool.or_false]
      rw [show ("%fox%" : String) = wrapLike "fox" from by decide]
      rw [show ("%wolf%" : String) = wrapLike "wolf" from by decide]
      rw [tagLikeP_wrap p "fox" (by decide), tagLikeP_wrap p "wolf" (by decide)]
    rw [hf]
    rw [show Int.toNat ((limit : Nat) : Int) = limit from by simp]

/-- C8 witness: the OR-group structure statement instantiated at the
query `~fox ~wolf`, hypotheses discharged by evaluation. -/
theorem c8_or_group_witness :
    ∃ front fparams,
      [Atom.orGroup 2] = front ++ [Atom.orGroup (["fox", "wolf"] : List String).length] ∧
      [PVal.str "%fox%", PVal.str "%wolf%"] =
        fparams ++ (["fox", "wolf"] : List String).map (fun t => PVal.str (wrapLike t)) ∧
      ∀ n, Atom.orGroup n ∉ front :=
  (c8_or_group.1 "~fox ~wolf" [Atom.orGroup 2] [PVal.str "%fox%", PVal.str "%wolf%"]
    (by decide)).2 ["fox", "wolf"] (by decide) (by decide)

end DatasetViewer

